import Mathlib

/-!
Verification of the fallible pipeline evaluator from `pipe_operator.h`.

The source (namespace `v3`) chains fallible transformation steps over a
`std::expected<Payload, OpErrorType>` with an overloaded `operator|` that
short-circuits on error.  We embed the data model and the operator shallowly:
`std::expected<Payload, OpErrorType>` becomes `Except OpErrorType Payload`,
the overloaded operator becomes the function `pipeOp`, and a chain of pipes
becomes a left fold (`evaluate`).
-/

/-- `v3::Payload` from the source: a record with a string field `fStr` and an
`int` field `fVal`. -/
structure Payload where
  fStr : String
  fVal : Int
deriving DecidableEq, Repr

/-- `v3::OpErrorType`: the closed error enumeration. -/
inductive OpErrorType where
  | kInvalidInput
  | kOverflow
  | kUnderflow
deriving DecidableEq, Repr

/-- `v3::PayloadOrError = std::expected<Payload, OpErrorType>`: success holds a
`Payload`, failure holds an `OpErrorType`. -/
abbrev PayloadOrError := Except OpErrorType Payload

instance : DecidableEq PayloadOrError := fun a b =>
  match a, b with
  | Except.ok p, Except.ok q =>
    if h : p = q then isTrue (by rw [h]) else isFalse (by intro hc; cases hc; exact h rfl)
  | Except.error e, Except.error f =>
    if h : e = f then isTrue (by rw [h]) else isFalse (by intro hc; cases hc; exact h rfl)
  | Except.ok _, Except.error _ => isFalse (by intro hc; cases hc)
  | Except.error _, Except.ok _ => isFalse (by intro hc; cases hc)

/-- A Step in the sense of the spec and of the v3 operator's generic
constraint: a function from the payload type `T` to an expected-like result.
Instantiated at the source's concrete types. -/
abbrev Step := Payload → PayloadOrError

/-- `v2::operator|` from the source: plain application, `t | f = f t`. -/
def pipe_v2 {α β : Type} (t : α) (f : α → β) : β := f t

/-- `v3::operator|` from the source (lines 96-104):
`return ex ? std::invoke(f, *ex) : ex;` -- if `ex` holds a value, invoke the
step with the dereferenced payload; otherwise return the failure unchanged. -/
def pipeOp (ex : PayloadOrError) (f : Step) : PayloadOrError :=
  match ex with
  | Except.ok p => f p
  | Except.error e => Except.error e

/-- The spec's `evaluate(initial, steps)`: the chained pipe expression
`((initial | s1) | s2) | ... | sn`, i.e. a left fold of `pipeOp`. -/
def evaluate (ini : PayloadOrError) (steps : List Step) : PayloadOrError :=
  steps.foldl pipeOp ini

/-- `v3::Payload_Proc_1` (lines 120-131): guard on failure, else increment
`fVal` and append `" proc by 1,"` to `fStr`.  (The `std::cout` line is I/O
only and does not affect the returned value.) -/
def Payload_Proc_1 (s : PayloadOrError) : PayloadOrError :=
  match s with
  | Except.error e => Except.error e
  | Except.ok p => Except.ok { p with fVal := p.fVal + 1, fStr := p.fStr ++ " proc by 1," }

/-- `v3::Payload_Proc_2` (lines 133-148): guard on failure, else increment
`fVal`, append `" proc by 2,"`, then randomly either return the updated
success or an error that is randomly `kOverflow` or `kUnderflow`.  The two
random draws are made explicit coin parameters: `succCoin` is
`rand_gen() % 2` of the outer conditional, `ovCoin` the one choosing between
overflow and underflow. -/
def Payload_Proc_2 (succCoin ovCoin : Bool) (s : PayloadOrError) : PayloadOrError :=
  match s with
  | Except.error e => Except.error e
  | Except.ok p =>
    let q : Payload := { p with fVal := p.fVal + 1, fStr := p.fStr ++ " proc by 2," }
    if succCoin then Except.ok q
    else Except.error (if ovCoin then OpErrorType.kOverflow else OpErrorType.kUnderflow)

/-- `v3::Payload_Proc_3` (lines 150-161): guard on failure, else add 3 to
`fVal` and append `" proc by 3,"`. -/
def Payload_Proc_3 (s : PayloadOrError) : PayloadOrError :=
  match s with
  | Except.error e => Except.error e
  | Except.ok p => Except.ok { p with fVal := p.fVal + 3, fStr := p.fStr ++ " proc by 3," }

/-- The pipe expression of `v3::Payload_PipeTest` (lines 164-182):
`PayloadOrError{ Payload{ "Start string ", 42 } } | Payload_Proc_1 |
Payload_Proc_2 | Payload_Proc_3`.  Invoking a proc (whose parameter type is
`PayloadOrError`) with the dereferenced `Payload` goes through the implicit
success conversion, embedded as `Except.ok`.  The two coins of
`Payload_Proc_2` are threaded as parameters. -/
def Payload_PipeTest (succCoin ovCoin : Bool) : PayloadOrError :=
  pipeOp (pipeOp (pipeOp (Except.ok { fStr := "Start string ", fVal := 42 })
      (fun p => Payload_Proc_1 (Except.ok p)))
      (fun p => Payload_Proc_2 succCoin ovCoin (Except.ok p)))
      (fun p => Payload_Proc_3 (Except.ok p))

/-- Modelled from the spec: `appendText(suffix)` of Scenario A/B/C
(§8 of the spec) is not in the source; per the spec it is a step that always
succeeds and only appends the given suffix to the text field. -/
def appendText (suffix : String) : Step :=
  fun p => Except.ok { p with fStr := p.fStr ++ suffix }

/-- The spec's description of success-path composition, written from the
spec's words (for the refinement comparison of C2): "manually folding s1 then
s2 ... then sn over the initial payload", threading each step's success value
into the next step. -/
def manualFold (p : Payload) (steps : List Step) : PayloadOrError :=
  match steps with
  | [] => Except.ok p
  | f :: fs =>
    match f p with
    | Except.ok q => manualFold q fs
    | Except.error e => Except.error e

/-- Once the current result is a failure, folding any further steps leaves it
unchanged: the operator's else-branch returns `ex` without invoking `f`. -/
lemma evaluate_error (steps : List Step) (e : OpErrorType) :
    evaluate (Except.error e) steps = Except.error e := by
  induction steps with
  | nil => rfl
  | cons f fs ih => simpa [evaluate, List.foldl_cons, pipeOp] using ih

/-- Splitting a chain: evaluating `pre ++ post` is evaluating `post` from the
result of `pre`. -/
lemma evaluate_append (ini : PayloadOrError) (pre post : List Step) :
    evaluate ini (pre ++ post) = evaluate (evaluate ini pre) post := by
  simp [evaluate, List.foldl_append]

/-- C1: if the current Result is or becomes a failure after some prefix of the
chain (including an initially-failing seed, `pre = []`), the whole chain
returns exactly that failure with the error value unchanged; the result does
not depend on the remaining steps, which are therefore never invoked. -/
theorem evaluate_short_circuits_first_failure (ini : PayloadOrError)
    (pre post : List Step) (e : OpErrorType)
    (h : evaluate ini pre = Except.error e) :
    evaluate ini (pre ++ post) = Except.error e := by
  rw [evaluate_append, h, evaluate_error]

/-- Witness for C1, Scenario C of the spec: seed `failure(kInvalidInput)`,
one `appendText` step; the evaluator returns the seed failure unchanged. -/
theorem evaluate_short_circuits_first_failure_w :
    evaluate (Except.error OpErrorType.kInvalidInput) [] =
      Except.error OpErrorType.kInvalidInput ∧
    evaluate (Except.error OpErrorType.kInvalidInput) ([] ++ [appendText "-a"]) =
      Except.error OpErrorType.kInvalidInput :=
  ⟨rfl, evaluate_short_circuits_first_failure _ [] [appendText "-a"] _ rfl⟩

/-- C2: the chained pipe expression over a success seed equals the manual
left-to-right fold of the steps over the initial payload (this holds
unconditionally, hence in particular when every step succeeds); and the v2
pipe is nested function application, `a | f | g = g (f a)`. -/
theorem evaluate_eq_manualFold_and_nested :
    (∀ (p : Payload) (steps : List Step),
      evaluate (Except.ok p) steps = manualFold p steps) ∧
    (∀ (α β γ : Type) (a : α) (f : α → β) (g : β → γ),
      pipe_v2 (pipe_v2 a f) g = g (f a)) := by
  constructor
  · intro p steps
    induction steps generalizing p with
    | nil => rfl
    | cons f fs ih =>
      show evaluate (f p) fs = _
      cases hf : f p with
      | ok q => simpa [manualFold, hf] using ih q
      | error e => simp [manualFold, hf, evaluate_error]
  · intro α β γ a f g
    rfl

/-- C3, Scenario A: seed `success{text = "start", n = 0}` with two always-
succeeding append-only steps yields the concatenated text with the counter
unchanged. -/
theorem scenarioA_appendText_frame :
    evaluate (Except.ok { fStr := "start", fVal := 0 })
        [appendText "-a", appendText "-b"] =
      Except.ok { fStr := "start-a-b", fVal := 0 } := rfl

/-- C4: evaluating the empty chain returns the initial Result unchanged,
whether success or failure. -/
theorem evaluate_empty_identity (ini : PayloadOrError) : evaluate ini [] = ini := rfl

/-- C9: in `Payload_PipeTest`, when `Payload_Proc_2` takes its success branch
(success coin true; the overflow coin is then never drawn), the final Result
is success with `fVal = 47` and the three suffixes appended in order. -/
theorem pipeTest_success_branch_result (ovCoin : Bool) :
    Payload_PipeTest true ovCoin =
      Except.ok { fStr := "Start string  proc by 1, proc by 2, proc by 3,",
                  fVal := 47 } := rfl

/-- C10: every failure the `Payload_PipeTest` pipeline can produce carries
`kOverflow` or `kUnderflow`, never `kInvalidInput`: the only failure source is
`Payload_Proc_2`, whose error is drawn from those two tags, and the evaluator
passes failures through unchanged. -/
theorem pipeTest_failures_overflow_or_underflow (succCoin ovCoin : Bool)
    (e : OpErrorType) (h : Payload_PipeTest succCoin ovCoin = Except.error e) :
    e = OpErrorType.kOverflow ∨ e = OpErrorType.kUnderflow := by
  cases succCoin <;> cases ovCoin <;>
    simp [Payload_PipeTest, pipeOp, Payload_Proc_1, Payload_Proc_2, Payload_Proc_3] at h <;>
    simp [h]

/-- Witness for C10: with the success coin false and the overflow coin true,
the pipeline fails with `kOverflow`, which is one of the two allowed tags. -/
theorem pipeTest_failures_overflow_or_underflow_w :
    Payload_PipeTest false true = Except.error OpErrorType.kOverflow ∧
    (OpErrorType.kOverflow = OpErrorType.kOverflow ∨
      OpErrorType.kOverflow = OpErrorType.kUnderflow) :=
  ⟨rfl, pipeTest_failures_overflow_or_underflow false true _ rfl⟩

/-- The spec's per-evaluation state machine (§4.1): states are
`Running(step index, current Result)` and `Done(final Result)`. -/
inductive EvalState where
  | Running : Nat → PayloadOrError → EvalState
  | Done : PayloadOrError → EvalState
deriving DecidableEq, Repr

/-- One transition of the spec's state machine:
`Running(i, r) → Running(i+1, steps[i](r.payload))` if `r` is success and
`i < len(steps)`; `Running(i, r) → Done(r)` if `r` is failure;
`Running(len(steps), r) → Done(r)`; `Done` is terminal. -/
def stepFn (steps : List Step) : EvalState → EvalState
  | EvalState.Running i r =>
    match r with
    | Except.error e => EvalState.Done (Except.error e)
    | Except.ok p =>
      match steps[i]? with
      | some f => EvalState.Running (i + 1) (f p)
      | none => EvalState.Done (Except.ok p)
  | EvalState.Done r => EvalState.Done r

/-- Shifting a state's index by one, to relate the machine of `f :: fs` to the
machine of `fs`. -/
def shiftState : EvalState → EvalState
  | EvalState.Running i r => EvalState.Running (i + 1) r
  | EvalState.Done r => EvalState.Done r

lemma stepFn_cons_shift (f : Step) (fs : List Step) (st : EvalState) :
    stepFn (f :: fs) (shiftState st) = shiftState (stepFn fs st) := by
  cases st with
  | Done r => rfl
  | Running i r =>
    cases r with
    | error e => rfl
    | ok p =>
      show (match (f :: fs)[i + 1]? with
        | some g => EvalState.Running (i + 1 + 1) (g p)
        | none => EvalState.Done (Except.ok p)) =
        shiftState (match fs[i]? with
        | some g => EvalState.Running (i + 1) (g p)
        | none => EvalState.Done (Except.ok p))
      rw [List.getElem?_cons_succ]
      cases fs[i]? <;> rfl

lemma iterate_stepFn_cons_shift (f : Step) (fs : List Step) (n : Nat)
    (st : EvalState) :
    (stepFn (f :: fs))^[n] (shiftState st) = shiftState ((stepFn fs)^[n] st) := by
  induction n generalizing st with
  | zero => rfl
  | succ m ih => rw [Function.iterate_succ_apply, Function.iterate_succ_apply,
      stepFn_cons_shift, ih]

lemma iterate_stepFn_done (steps : List Step) (n : Nat) (r : PayloadOrError) :
    (stepFn steps)^[n] (EvalState.Done r) = EvalState.Done r := by
  induction n with
  | zero => rfl
  | succ m ih => rw [Function.iterate_succ_apply]; exact ih

/-- C5 counterexample: with the empty step list and the seed
`success{"start", 0}`, "at most `len(steps)` transitions" means at most 0
transitions, but the machine starts in a `Running` state and only a
transition can reach `Done`; so the claimed bound fails. -/
theorem stateMachine_len_transitions_cex :
    ¬ ∃ n, n ≤ List.length ([] : List Step) ∧
      (stepFn [])^[n] (EvalState.Running 0 (Except.ok { fStr := "start", fVal := 0 })) =
        EvalState.Done (evaluate (Except.ok { fStr := "start", fVal := 0 }) []) := by
  rintro ⟨n, hn, h⟩
  have hz : n = 0 := Nat.le_zero.mp hn
  rw [hz] at h
  exact EvalState.noConfusion h

/-- C5 amended: starting at `Running(0, initial)`, the machine reaches
`Done(evaluate initial steps)` after at most `len(steps) + 1` transitions
(exactly `len(steps) + 1` iterations of the transition function suffice), and
`Done` is terminal — no cycles, no re-entry. -/
theorem stateMachine_terminates (steps : List Step) (ini : PayloadOrError) :
    (stepFn steps)^[steps.length + 1] (EvalState.Running 0 ini) =
      EvalState.Done (evaluate ini steps) ∧
    ∀ r, stepFn steps (EvalState.Done r) = EvalState.Done r := by
  refine ⟨?_, fun r => rfl⟩
  induction steps generalizing ini with
  | nil => cases ini <;> rfl
  | cons f fs ih =>
    cases ini with
    | error e =>
      have h1 : stepFn (f :: fs) (EvalState.Running 0 (Except.error e)) =
          EvalState.Done (Except.error e) := rfl
      rw [List.length_cons, Function.iterate_succ_apply, h1, iterate_stepFn_done,
        evaluate_error]
    | ok p =>
      have h1 : stepFn (f :: fs) (EvalState.Running 0 (Except.ok p)) =
          shiftState (EvalState.Running 0 (f p)) := by
        show (match (f :: fs)[0]? with
          | some g => EvalState.Running 1 (g p)
          | none => EvalState.Done (Except.ok p)) = _
        rw [List.getElem?_cons_zero]
        rfl
      rw [List.length_cons, Function.iterate_succ_apply, h1,
        iterate_stepFn_cons_shift, ih (f p)]
      rfl

/-- C6: the evaluator raises no errors of its own — every failure it returns
is either the seed failure passed through or a failure produced by one of the
steps.  (Totality and guarded payload access are inherent: `pipeOp` is a
total function that dereferences the payload only in the success branch of
its match.) -/
theorem evaluator_raises_no_errors (ini : PayloadOrError) (steps : List Step)
    (e : OpErrorType) (h : evaluate ini steps = Except.error e) :
    ini = Except.error e ∨ ∃ f ∈ steps, ∃ p, f p = Except.error e := by
  induction steps generalizing ini with
  | nil => exact Or.inl h
  | cons f fs ih =>
    have h2 : evaluate (pipeOp ini f) fs = Except.error e := h
    rcases ih (pipeOp ini f) h2 with hh | ⟨g, hg, p, hp⟩
    · cases ini with
      | error e2 =>
        exact Or.inl (by simpa [pipeOp] using hh)
      | ok p =>
        exact Or.inr ⟨f, List.mem_cons_self f fs, p, hh⟩
    · exact Or.inr ⟨g, List.mem_cons_of_mem f hg, p, hp⟩

/-- Witness for C6: a step that fails with `kOverflow` over a success seed;
the returned failure is traced to that step. -/
theorem evaluator_raises_no_errors_w :
    evaluate (Except.ok { fStr := "x", fVal := 0 })
        [fun _ => Except.error OpErrorType.kOverflow] =
      Except.error OpErrorType.kOverflow ∧
    ((Except.ok { fStr := "x", fVal := 0 } : PayloadOrError) =
        Except.error OpErrorType.kOverflow ∨
      ∃ f ∈ ([fun _ => Except.error OpErrorType.kOverflow] : List Step),
        ∃ p, f p = Except.error OpErrorType.kOverflow) :=
  ⟨rfl, evaluator_raises_no_errors _ _ _ rfl⟩

/-- C7: the evaluator is deterministic given the outcomes the steps produce:
two runs from the same initial Result over step sequences with pointwise
equal outcomes return the same final Result.  All nondeterminism (e.g. the
random coins of `Payload_Proc_2`) resides in the steps, never in the
evaluator, which is a pure function of the seed and the step outcomes. -/
theorem evaluator_deterministic (s t : List Step) (ini : PayloadOrError)
    (h : List.Forall₂ (fun f g => ∀ p, f p = g p) s t) :
    evaluate ini s = evaluate ini t := by
  induction h generalizing ini with
  | nil => rfl
  | @cons a b l1 l2 hfg htail ih =>
    show evaluate (pipeOp ini a) l1 = evaluate (pipeOp ini b) l2
    have hp : pipeOp ini a = pipeOp ini b := by
      cases ini with
      | error e => rfl
      | ok p => exact hfg p
    rw [hp]; exact ih _

/-- Witness for C7: two syntactically distinct step lists with pointwise
equal outcomes give the same result on a concrete seed. -/
theorem evaluator_deterministic_w :
    List.Forall₂ (fun f g => ∀ p, f p = g p)
      [appendText "-a"] [fun p => Except.ok { p with fStr := p.fStr ++ "-a" }] ∧
    evaluate (Except.ok { fStr := "x", fVal := 0 }) [appendText "-a"] =
      evaluate (Except.ok { fStr := "x", fVal := 0 })
        [fun p => Except.ok { p with fStr := p.fStr ++ "-a" }] :=
  ⟨List.Forall₂.cons (fun _ => rfl) List.Forall₂.nil,
    evaluator_deterministic _ _ _
      (List.Forall₂.cons (fun _ => rfl) List.Forall₂.nil)⟩

/-- `Payload_Proc_1` with its initial failure guard removed, i.e. just its
success-path body. -/
def Payload_Proc_1_unguarded (p : Payload) : PayloadOrError :=
  Except.ok { p with fVal := p.fVal + 1, fStr := p.fStr ++ " proc by 1," }

/-- `Payload_Proc_2` with its initial failure guard removed. -/
def Payload_Proc_2_unguarded (succCoin ovCoin : Bool) (p : Payload) : PayloadOrError :=
  let q : Payload := { p with fVal := p.fVal + 1, fStr := p.fStr ++ " proc by 2," }
  if succCoin then Except.ok q
  else Except.error (if ovCoin then OpErrorType.kOverflow else OpErrorType.kUnderflow)

/-- `Payload_Proc_3` with its initial failure guard removed. -/
def Payload_Proc_3_unguarded (p : Payload) : PayloadOrError :=
  Except.ok { p with fVal := p.fVal + 3, fStr := p.fStr ++ " proc by 3," }

/-- C8: through the v3 operator, each proc only ever receives a success value
(the operator passes the dereferenced payload, converted to a success
Result), so each proc agrees with its guard-free body on every operator
invocation: the `if (!s) return s;` guard in `Payload_Proc_1/2/3` is
unreachable via the operator. -/
theorem operator_guard_unreachable (ex : PayloadOrError) (succCoin ovCoin : Bool) :
    (∀ p, Payload_Proc_1 (Except.ok p) = Payload_Proc_1_unguarded p) ∧
    (∀ p, Payload_Proc_2 succCoin ovCoin (Except.ok p) =
      Payload_Proc_2_unguarded succCoin ovCoin p) ∧
    (∀ p, Payload_Proc_3 (Except.ok p) = Payload_Proc_3_unguarded p) ∧
    pipeOp ex (fun p => Payload_Proc_1 (Except.ok p)) =
      pipeOp ex Payload_Proc_1_unguarded ∧
    pipeOp ex (fun p => Payload_Proc_2 succCoin ovCoin (Except.ok p)) =
      pipeOp ex (Payload_Proc_2_unguarded succCoin ovCoin) ∧
    pipeOp ex (fun p => Payload_Proc_3 (Except.ok p)) =
      pipeOp ex Payload_Proc_3_unguarded := by
  refine ⟨fun _ => rfl, fun _ => rfl, fun _ => rfl, ?_, ?_, ?_⟩ <;> cases ex <;> rfl
